import Mathlib

/-!
# table_size_exporter: the refresh cycle and the gauge registry

A shallow embedding of `src/main.go`.

* The gauge vector `tableSizeGauge` is a duplicate-free association list from
  label pairs `(table_name, database_name)` to gauge values.  Only
  `With(labels).Set(v)` is ever called on it, so that is the only write.
* The program is given twice.  `updateMetrics` is the cycle on rows whose names
  are text, with line 87 as one write.  `Detailed.updateMetrics` takes the rows
  as `rows.Scan` returns them, names being arbitrary bytes, and line 87 as its
  two calls: `With` panics on a name that is not valid UTF-8 and creates a new
  child with the value 0, `Set` stores the size.  `detailed_updateMetrics_toSource`
  shows that the two agree on rows whose names are text.
* The gauge value type `V` is a parameter: the program stores the scanned
  `float64` and never computes with it or compares it.
* The database is an environment.  One value of `DB` fixes what `sql.Open`,
  `Ping`, `Query`, `rows.Next`/`rows.Scan`, `rows.Err` and the two `Close`
  calls answer during one call of `updateMetrics`.
* What a cycle does besides writing gauges (log lines, opening and closing
  handles and cursors) is recorded in order in `World.trace`.
* A scrape runs in another goroutine and reads the children one by one; what a
  scrape can report during a cycle is given by `Detailed.cycleStates` and
  `CanScrape`.
* The loop counter `count` is a natural number: a Go `int` counting the rows of
  one result set does not wrap.
-/

namespace TableSizeExporter

/-- Go `error` values, identified by their message. -/
abbrev Error := String

/-- The label values of one child of `tableSizeGauge`, in the order of the
label names `[]string{"table_name", "database_name"}`. -/
structure GaugeKey where
  table_name : String
  database_name : String
deriving DecidableEq, Repr

/-- The effect of `With(labels).Set(v)` on the children of a gauge vector: the
child with these label values gets the value `v`; it is created (appended) when
absent. -/
def setMetric {V : Type} (k : GaugeKey) (v : V) : List (GaugeKey × V) → List (GaugeKey × V)
  | [] => [(k, v)]
  | (k0, v0) :: rest =>
    if k0 = k then (k0, v) :: rest else (k0, v0) :: setMetric k v rest

/-- The value of the child with label values `k`, if there is one. -/
def getMetric {V : Type} (k : GaugeKey) : List (GaugeKey × V) → Option V
  | [] => none
  | (k0, v0) :: rest => if k0 = k then some v0 else getMetric k rest

theorem keys_setMetric {V : Type} (k : GaugeKey) (v : V) (l : List (GaugeKey × V)) :
    (setMetric k v l).map Prod.fst
      = if k ∈ l.map Prod.fst then l.map Prod.fst else l.map Prod.fst ++ [k] := by
  induction l with
  | nil => simp [setMetric]
  | cons e rest ih =>
    obtain ⟨k0, v0⟩ := e
    by_cases h : k0 = k
    · subst h
      simp [setMetric]
    · have h2 : ¬ k = k0 := fun h3 => h h3.symm
      by_cases hm : k ∈ rest.map Prod.fst
      · simp only [setMetric, if_neg h, List.map_cons, ih, if_pos hm, List.mem_cons, hm, or_true,
          if_true]
      · simp only [setMetric, if_neg h, List.map_cons, ih, if_neg hm, List.mem_cons, hm, h2,
          or_self, if_false, List.cons_append]

theorem nodup_keys_setMetric {V : Type} (k : GaugeKey) (v : V) (l : List (GaugeKey × V))
    (h : (l.map Prod.fst).Nodup) : ((setMetric k v l).map Prod.fst).Nodup := by
  rw [keys_setMetric]
  split
  · exact h
  · rename_i hk
    exact List.Nodup.append h (List.nodup_singleton k) (by simpa using hk)

/-- The gauge vector `tableSizeGauge` (a `*prometheus.GaugeVec`): its children,
at most one per pair of label values. -/
structure GaugeVec (V : Type) where
  metrics : List (GaugeKey × V)
  nodup : (metrics.map Prod.fst).Nodup

namespace GaugeVec

variable {V : Type}

/-- The result of `prometheus.NewGaugeVec(...)`: a vector without children. -/
def empty : GaugeVec V := ⟨[], List.nodup_nil⟩

/-- The call `g.With(labels).Set(v)`. -/
def set (g : GaugeVec V) (k : GaugeKey) (v : V) : GaugeVec V :=
  ⟨setMetric k v g.metrics, nodup_keys_setMetric k v g.metrics g.nodup⟩

/-- The value a scrape reports for the label values `k`, if any. -/
def get (g : GaugeVec V) (k : GaugeKey) : Option V := getMetric k g.metrics

/-- The number of gauge lines a scrape reports for the label values `k`. -/
def count (g : GaugeVec V) (k : GaugeKey) : Nat :=
  (g.metrics.filter (fun e => decide (e.1 = k))).length

/-- The label values that have a gauge. -/
def keys (g : GaugeVec V) : List GaugeKey := g.metrics.map Prod.fst

end GaugeVec

theorem GaugeVec.ext_metrics {V : Type} {g h : GaugeVec V} (e : g.metrics = h.metrics) :
    g = h := by
  cases g; cases h; cases e; rfl

instance {V : Type} [DecidableEq V] : DecidableEq (GaugeVec V) := fun g h =>
  decidable_of_iff (g.metrics = h.metrics)
    ⟨GaugeVec.ext_metrics, fun e => by rw [e]⟩

/-- One decoded result row: the three variables `rows.Scan` fills. -/
structure Row (V : Type) where
  databaseName : String
  tableName : String
  tableSize : V

/-- The labels the row loop builds from a decoded row:
`{"table_name": tableName, "database_name": databaseName}`. -/
def Row.key {V : Type} (r : Row V) : GaugeKey := ⟨r.tableName, r.databaseName⟩

/-- The behaviour of the cursor `rows` returned by `db.Query`: one `rows.Scan`
result for every time `rows.Next()` answers true, then what `rows.Err()` and
`rows.Close()` return. -/
structure Rows (V : Type) where
  scans : List (Except Error (Row V))
  err : Option Error
  closeErr : Option Error

/-- The behaviour of the data source during one call of `updateMetrics`. -/
structure DB (V : Type) where
  openErr : Option Error
  pingErr : Option Error
  query : Except Error (Rows V)
  closeErr : Option Error

/-- The lines `updateMetrics` can log, one constructor per `log.Printf`. -/
inductive LogLine
  | connectError (err : Error)
  | closeDbError (err : Error)
  | queryError (err : Error)
  | closeRowsError (err : Error)
  | scanError (err : Error)
  | iterError (err : Error)
  | summary (count : Nat) (dbName : String)
deriving DecidableEq, Repr

/-- What a cycle does that is visible outside the gauge vector. -/
inductive Event
  | dbOpened
  | dbClosed
  | rowsOpened
  | rowsClosed
  | log (line : LogLine)
  | cycleStart
  | cycleReturn
deriving DecidableEq, Repr

/-- The package-level state of the program together with the record of what
it has done so far. -/
structure World (V : Type) where
  dbName : String
  tableSizeGauge : GaugeVec V
  trace : List Event

section Program

variable {V : Type}

/-- Record one event at the end of the trace. -/
def World.emit (w : World V) (e : Event) : World V :=
  { w with trace := w.trace ++ [e] }

/-- A call of `log.Printf`. -/
def World.logPrintf (w : World V) (l : LogLine) : World V :=
  w.emit (Event.log l)

/-- Line 87, `tableSizeGauge.With(Labels{...}).Set(tableSize)`, on a row whose
names are text: `With` does not panic on such a row, and the child it returns,
new or not, holds the size once `Set` has run. The two calls and the panic are
in `Detailed.setTableSize`. -/
def World.setGauge (w : World V) (r : Row V) : World V :=
  { w with tableSizeGauge := w.tableSizeGauge.set r.key r.tableSize }

/-- Lines 30-42. `sql.Open` hands out a handle only when it succeeds; a failed
`Ping` closes the handle and drops the result of `Close`. -/
def connectDB (db : DB V) (w : World V) : Except Error Unit × World V :=
  match db.openErr with
  | some err => (Except.error err, w)
  | none =>
    let w1 := w.emit Event.dbOpened
    match db.pingErr with
    | some err => (Except.error err, w1.emit Event.dbClosed)
    | none => (Except.ok (), w1)

/-- Lines 50-54, the deferred `db.Close()`. -/
def deferredCloseDB (db : DB V) (w : World V) : World V :=
  let w1 := w.emit Event.dbClosed
  match db.closeErr with
  | some err => w1.logPrintf (LogLine.closeDbError err)
  | none => w1

/-- Lines 70-74, the deferred `rows.Close()`. -/
def deferredCloseRows (rows : Rows V) (w : World V) : World V :=
  let w1 := w.emit Event.rowsClosed
  match rows.closeErr with
  | some err => w1.logPrintf (LogLine.closeRowsError err)
  | none => w1

/-- Lines 78-88, the body of the row loop on the state `(count, world)`. -/
def scanRow (s : Except Error (Row V)) (st : Nat × World V) : Nat × World V :=
  match s with
  | Except.error err => (st.1, st.2.logPrintf (LogLine.scanError err))
  | Except.ok row => (st.1 + 1, st.2.setGauge row)

/-- Lines 77-89, `for rows.Next() { ... }`. -/
def rowLoop : List (Except Error (Row V)) → Nat × World V → Nat × World V
  | [], st => st
  | s :: rest, st => rowLoop rest (scanRow s st)

/-- Lines 44-96. The deferred calls run in reverse order at every return that
follows their `defer` statement. -/
def updateMetrics (db : DB V) (w : World V) : World V :=
  match connectDB db w with
  | (Except.error err, w1) => w1.logPrintf (LogLine.connectError err)
  | (Except.ok (), w1) =>
    match db.query with
    | Except.error err => deferredCloseDB db (w1.logPrintf (LogLine.queryError err))
    | Except.ok rows =>
      let w2 := w1.emit Event.rowsOpened
      let st := rowLoop rows.scans (0, w2)
      let w3 := match rows.err with
        | some err => st.2.logPrintf (LogLine.iterError err)
        | none => st.2
      let w4 := w3.logPrintf (LogLine.summary st.1 w3.dbName)
      deferredCloseDB db (deferredCloseRows rows w4)

/-- One statement `updateMetrics()` of the goroutine in `main`: the call and
its return are recorded around the body. -/
def callUpdateMetrics (db : DB V) (w : World V) : World V :=
  (updateMetrics db (w.emit Event.cycleStart)).emit Event.cycleReturn

/-- Lines 104-109, the goroutine of `main` up to the moment it has consumed
the ticks `ticks` from `ticker.C`: `first` is the data source as the first call
finds it, and each tick comes with the data source as its call finds it. -/
def refreshLoop (first : DB V) (ticks : List (DB V)) (w : World V) : World V :=
  ticks.foldl (fun acc db => callUpdateMetrics db acc) (callUpdateMetrics first w)

/-! ### Line 87 step by step

`rows.Scan` copies the bytes of a column into a Go `string` without looking at
them, and line 87 is two calls. `With` checks each label value with
`utf8.ValidString` and panics when one fails; otherwise it returns the child for
these label values, which it creates with the value 0 when there is none. `Set`
then stores the size in the child. A panic leaves `updateMetrics` at once, runs
the deferred calls and ends the goroutine.

`Row`, `scanRow`, `rowLoop` and `updateMetrics` above are the program on rows
whose names are text, where `With` does not panic and line 87 comes to
`GaugeVec.set`. The definitions below follow every row `rows.Scan` can return
and every value the gauge vector takes; `detailed_updateMetrics_toSource` shows
that on rows whose names are text both give the same result. -/

/-- A Go `string` as `rows.Scan` fills it: text (valid UTF-8, given by the Lean
string it encodes) or a byte sequence that `utf8.ValidString` rejects. -/
inductive GoString
  | utf8 (s : String)
  | notUTF8 (bytes : List UInt8)

/-- One result row as `rows.Scan` decodes it. -/
structure ScannedRow (V : Type) where
  databaseName : GoString
  tableName : GoString
  tableSize : V

/-- The check of the label values in `With`: the row with its names as text when
both are valid UTF-8, nothing when one is not. -/
def ScannedRow.text? (r : ScannedRow V) : Option (Row V) :=
  match r.databaseName, r.tableName with
  | GoString.utf8 d, GoString.utf8 t => some ⟨d, t, r.tableSize⟩
  | _, _ => none

/-- The behaviour of the cursor returned by `db.Query`, with the rows as
`rows.Scan` decodes them. -/
structure ScannedRows (V : Type) where
  scans : List (Except Error (ScannedRow V))
  err : Option Error
  closeErr : Option Error

/-- The behaviour of the data source during one call of `updateMetrics`, with
the rows as `rows.Scan` decodes them. -/
structure Source (V : Type) where
  openErr : Option Error
  pingErr : Option Error
  query : Except Error (ScannedRows V)
  closeErr : Option Error

/-- How a call of `updateMetrics` ends. -/
inductive Outcome
  | returned
  | panicked
deriving DecidableEq, Repr

/-- The child lookup of `With`: the vector itself when it has a child for `k`,
else the vector with a new child for `k` holding 0. -/
def GaugeVec.getOrCreate [Zero V] (g : GaugeVec V) (k : GaugeKey) : GaugeVec V :=
  match g.get k with
  | some _ => g
  | none => g.set k 0

/-- Lines 30-42 on a `Source`. -/
def Detailed.connectDB (src : Source V) (w : World V) : Except Error Unit × World V :=
  match src.openErr with
  | some err => (Except.error err, w)
  | none =>
    let w1 := w.emit Event.dbOpened
    match src.pingErr with
    | some err => (Except.error err, w1.emit Event.dbClosed)
    | none => (Except.ok (), w1)

/-- Lines 50-54 on a `Source`. -/
def Detailed.deferredCloseDB (src : Source V) (w : World V) : World V :=
  let w1 := w.emit Event.dbClosed
  match src.closeErr with
  | some err => w1.logPrintf (LogLine.closeDbError err)
  | none => w1

/-- Lines 70-74 on a `ScannedRows`. -/
def Detailed.deferredCloseRows (rows : ScannedRows V) (w : World V) : World V :=
  let w1 := w.emit Event.rowsClosed
  match rows.closeErr with
  | some err => w1.logPrintf (LogLine.closeRowsError err)
  | none => w1

/-- Line 87: `With` panics or finds or creates the child, then `Set` stores the
size in it. -/
def Detailed.setTableSize [Zero V] (row : ScannedRow V) (w : World V) : Outcome × World V :=
  match row.text? with
  | none => (Outcome.panicked, w)
  | some r =>
    let child := w.tableSizeGauge.getOrCreate r.key
    (Outcome.returned, { w with tableSizeGauge := child.set r.key r.tableSize })

/-- Lines 77-89 on the state `(count, world)`; a panic ends the loop. -/
def Detailed.rowLoop [Zero V] :
    List (Except Error (ScannedRow V)) → Nat × World V → Outcome × (Nat × World V)
  | [], st => (Outcome.returned, st)
  | Except.error err :: rest, st =>
    Detailed.rowLoop rest (st.1, st.2.logPrintf (LogLine.scanError err))
  | Except.ok row :: rest, st =>
    match Detailed.setTableSize row st.2 with
    | (Outcome.panicked, w1) => (Outcome.panicked, (st.1, w1))
    | (Outcome.returned, w1) => Detailed.rowLoop rest (st.1 + 1, w1)

/-- Lines 44-96. When the row loop panics, the rest of the body is skipped and
the two deferred calls run before the panic leaves the function. -/
def Detailed.updateMetrics [Zero V] (src : Source V) (w : World V) : Outcome × World V :=
  match Detailed.connectDB src w with
  | (Except.error err, w1) => (Outcome.returned, w1.logPrintf (LogLine.connectError err))
  | (Except.ok (), w1) =>
    match src.query with
    | Except.error err =>
      (Outcome.returned, Detailed.deferredCloseDB src (w1.logPrintf (LogLine.queryError err)))
    | Except.ok rows =>
      let w2 := w1.emit Event.rowsOpened
      match Detailed.rowLoop rows.scans (0, w2) with
      | (Outcome.panicked, st) =>
        (Outcome.panicked, Detailed.deferredCloseDB src (Detailed.deferredCloseRows rows st.2))
      | (Outcome.returned, st) =>
        let w3 := match rows.err with
          | some err => st.2.logPrintf (LogLine.iterError err)
          | none => st.2
        let w4 := w3.logPrintf (LogLine.summary st.1 w3.dbName)
        (Outcome.returned, Detailed.deferredCloseDB src (Detailed.deferredCloseRows rows w4))

/-- The values the gauge vector takes, in order of time, while the row loop
runs from the vector `g`: before `With`, after `With` (the child is there, with
0 if it is new), after `Set`, and so on until the loop ends or panics. -/
def Detailed.rowStates [Zero V] :
    List (Except Error (ScannedRow V)) → GaugeVec V → List (GaugeVec V)
  | [], g => [g]
  | Except.error _ :: rest, g => Detailed.rowStates rest g
  | Except.ok row :: rest, g =>
    match row.text? with
    | none => [g]
    | some r =>
      g :: g.getOrCreate r.key ::
        Detailed.rowStates rest ((g.getOrCreate r.key).set r.key r.tableSize)

/-- The values the gauge vector takes, in order of time, during one call of
`updateMetrics`. -/
def Detailed.cycleStates [Zero V] (src : Source V) (w : World V) : List (GaugeVec V) :=
  match Detailed.connectDB src w with
  | (Except.error _, w1) => [w1.tableSizeGauge]
  | (Except.ok (), w1) =>
    match src.query with
    | Except.error _ => [w1.tableSizeGauge]
    | Except.ok rows => Detailed.rowStates rows.scans (w1.emit Event.rowsOpened).tableSizeGauge

/-- What a scrape served by the handler of lines 111-114 can report while a
cycle runs in the other goroutine. The scrape is not one read of the vector: it
reads each child on its own, so for each label pair it reports what one of the
values the vector takes during the cycle holds for that pair. -/
def CanScrape (states : List (GaugeVec V)) (obs : GaugeKey → Option V) : Prop :=
  ∀ k, ∃ g ∈ states, obs k = g.get k

/-- A row whose names are text, as `rows.Scan` decodes it. -/
def Row.toScanned (r : Row V) : ScannedRow V :=
  ⟨GoString.utf8 r.databaseName, GoString.utf8 r.tableName, r.tableSize⟩

/-- A scan result whose names, if it decodes, are text. -/
def textScan : Except Error (Row V) → Except Error (ScannedRow V)
  | Except.ok r => Except.ok r.toScanned
  | Except.error err => Except.error err

/-- A cursor all of whose rows have names that are text. -/
def Rows.toScanned (rows : Rows V) : ScannedRows V :=
  ⟨rows.scans.map textScan, rows.err, rows.closeErr⟩

/-- A data source all of whose rows have names that are text. -/
def DB.toSource (db : DB V) : Source V :=
  ⟨db.openErr, db.pingErr,
    match db.query with
    | Except.ok rows => Except.ok rows.toScanned
    | Except.error err => Except.error err,
    db.closeErr⟩

/-! ### Vocabulary of the statements -/

/-- The rows of a cursor that `rows.Scan` decodes, in the order delivered. -/
def decodedRows : List (Except Error (Row V)) → List (Row V)
  | [] => []
  | Except.ok r :: rest => r :: decodedRows rest
  | Except.error _ :: rest => decodedRows rest

/-- The scan results of a cursor without those that are errors. -/
def decodableOnly : List (Except Error (Row V)) → List (Except Error (Row V))
  | [] => []
  | Except.ok r :: rest => Except.ok r :: decodableOnly rest
  | Except.error _ :: rest => decodableOnly rest

/-- Gauge writes for a list of rows, first row first. -/
def applyRows : List (Row V) → GaugeVec V → GaugeVec V
  | [], g => g
  | r :: rest, g => applyRows rest (g.set r.key r.tableSize)

/-- The rows one cycle decodes: those of the cursor when the connection and the
query succeed, none otherwise. -/
def DB.decoded (db : DB V) : List (Row V) :=
  match db.openErr, db.pingErr, db.query with
  | none, none, Except.ok rows => decodedRows rows.scans
  | _, _, _ => []

/-- Opening or closing of a database handle or of a cursor. -/
def Event.isResource : Event → Bool
  | Event.dbOpened => true
  | Event.dbClosed => true
  | Event.rowsOpened => true
  | Event.rowsClosed => true
  | _ => false

/-- Call or return of `updateMetrics`. -/
def Event.isCycleMark : Event → Bool
  | Event.cycleStart => true
  | Event.cycleReturn => true
  | _ => false

/-- Database handles opened and not yet closed in a trace. -/
def openHandles (t : List Event) : Int :=
  (t.count Event.dbOpened : Int) - (t.count Event.dbClosed : Int)

/-- Cursors opened and not yet closed in a trace. -/
def openCursors (t : List Event) : Int :=
  (t.count Event.rowsOpened : Int) - (t.count Event.rowsClosed : Int)

/-- The events one call of `updateMetrics` adds to the trace. -/
def cycleEvents (db : DB V) (w : World V) : List Event :=
  (updateMetrics db w).trace.drop w.trace.length

/-- The log lines of the row loop: one per row that fails to decode. -/
def scanLogs : List (Except Error (Row V)) → List Event
  | [] => []
  | Except.ok _ :: rest => scanLogs rest
  | Except.error err :: rest => Event.log (LogLine.scanError err) :: scanLogs rest

/-- The rows the detailed row loop writes: the decoded rows, as text, up to the
first one whose names are not valid UTF-8. -/
def writtenRows : List (Except Error (ScannedRow V)) → List (Row V)
  | [] => []
  | Except.error _ :: rest => writtenRows rest
  | Except.ok row :: rest =>
    match row.text? with
    | none => []
    | some r => r :: writtenRows rest

/-- The rows one detailed cycle writes. -/
def Source.written (src : Source V) : List (Row V) :=
  match src.openErr, src.pingErr, src.query with
  | none, none, Except.ok rows => writtenRows rows.scans
  | _, _, _ => []

/-! ### Concrete data sources and worlds -/

def usersRow : Row Nat := ⟨"app", "users", 1024⟩

def ordersRow : Row Nat := ⟨"app", "orders", 2048⟩

def usersKey : GaugeKey := ⟨"users", "app"⟩

def ordersKey : GaugeKey := ⟨"orders", "app"⟩

/-- The program right after `init`: no gauge, nothing done. -/
def freshWorld : World Nat := ⟨"app", GaugeVec.empty, []⟩

/-- A program that has reported 512 bytes for `app.users` before. -/
def staleWorld : World Nat := ⟨"app", GaugeVec.empty.set usersKey 512, []⟩

/-- A source that answers the query with two rows that decode. -/
def twoRowsDB : DB Nat :=
  ⟨none, none, Except.ok ⟨[Except.ok usersRow, Except.ok ordersRow], none, none⟩, none⟩

/-- A source whose second of three rows does not decode. -/
def badRowDB : DB Nat :=
  ⟨none, none,
    Except.ok ⟨[Except.ok usersRow, Except.error "converting NULL to float64",
      Except.ok ordersRow], none, none⟩, none⟩

/-- A source that answers the query with no row. -/
def zeroRowsDB : DB Nat := ⟨none, none, Except.ok ⟨[], none, none⟩, none⟩

/-- A source that accepts the handle and refuses the ping. -/
def pingFailsDB : DB Nat :=
  ⟨none, some "dial tcp: connection refused",
    Except.ok ⟨[Except.ok usersRow], none, none⟩, none⟩

/-- A source that delivers one row and then loses the connection. -/
def brokenStreamDB : DB Nat :=
  ⟨none, none, Except.ok ⟨[Except.ok usersRow], some "invalid connection", none⟩, none⟩

/-- A source that reports a larger size for `app.users` and nothing else. -/
def usersGrownDB : DB Nat :=
  ⟨none, none, Except.ok ⟨[Except.ok ⟨"app", "users", 4096⟩], none, none⟩, none⟩

/-- The gauge vector a scrape reads after the first of the two rows of
`twoRowsDB` has been written on `freshWorld`. -/
def usersOnly : GaugeVec Nat := GaugeVec.empty.set usersKey 1024

/-- The gauge vector after `With` has created the child for `app.users` in
`freshWorld` and before `Set` has stored its size. -/
def usersCreated : GaugeVec Nat := GaugeVec.empty.set usersKey 0

/-- A source whose second row decodes with a table name that is the single byte
`0xff`, which is not valid UTF-8. -/
def invalidNameSource : Source Nat :=
  ⟨none, none,
    Except.ok ⟨[Except.ok usersRow.toScanned,
      Except.ok ⟨GoString.utf8 "app", GoString.notUTF8 [0xff], 7⟩], none, none⟩, none⟩

/-- A source whose first row does not decode, whose second row decodes with a
table name that is not valid UTF-8, and whose third row is `app.orders`. -/
def undecodableThenInvalidSource : Source Nat :=
  ⟨none, none,
    Except.ok ⟨[Except.error "converting NULL to float64",
      Except.ok ⟨GoString.utf8 "app", GoString.notUTF8 [0xff], 7⟩,
      Except.ok ordersRow.toScanned], none, none⟩, none⟩

/-! ### The gauge vector -/

theorem getMetric_setMetric_self (k : GaugeKey) (v : V) (l : List (GaugeKey × V)) :
    getMetric k (setMetric k v l) = some v := by
  induction l with
  | nil => simp [setMetric, getMetric]
  | cons e rest ih =>
    obtain ⟨k0, v0⟩ := e
    by_cases h : k0 = k
    · simp [setMetric, getMetric, h]
    · simp [setMetric, getMetric, h, ih]

theorem getMetric_setMetric_ne (k k1 : GaugeKey) (v : V) (l : List (GaugeKey × V))
    (hne : k1 ≠ k) : getMetric k1 (setMetric k v l) = getMetric k1 l := by
  induction l with
  | nil =>
    have h2 : ¬ k = k1 := fun h3 => hne h3.symm
    simp [setMetric, getMetric, h2]
  | cons e rest ih =>
    obtain ⟨k0, v0⟩ := e
    by_cases h : k0 = k
    · subst h
      have h2 : ¬ k0 = k1 := fun h3 => hne h3.symm
      simp [setMetric, getMetric, h2]
    · by_cases h1 : k0 = k1
      · subst h1
        simp [setMetric, getMetric, hne]
      · simp [setMetric, getMetric, h, h1, ih]

theorem setMetric_of_not_mem (k : GaugeKey) (v : V) (l : List (GaugeKey × V))
    (h : k ∉ l.map Prod.fst) : setMetric k v l = l ++ [(k, v)] := by
  induction l with
  | nil => simp [setMetric]
  | cons e rest ih =>
    obtain ⟨k0, v0⟩ := e
    have h0 : ¬ k0 = k := fun h3 => h (by simp [h3])
    have hr : k ∉ rest.map Prod.fst := fun h3 => h (by simp at h3 ⊢; exact Or.inr h3)
    simp [setMetric, h0, ih hr]

theorem getMetric_isSome_iff (k : GaugeKey) (l : List (GaugeKey × V)) :
    (getMetric k l).isSome = true ↔ k ∈ l.map Prod.fst := by
  induction l with
  | nil => simp [getMetric]
  | cons e rest ih =>
    obtain ⟨k0, v0⟩ := e
    by_cases h : k0 = k
    · simp [getMetric, h]
    · have h2 : ¬ k = k0 := fun h3 => h h3.symm
      simp [getMetric, h, h2, ih]

theorem filter_key_of_not_mem (k : GaugeKey) (l : List (GaugeKey × V))
    (h : k ∉ l.map Prod.fst) : l.filter (fun e => decide (e.1 = k)) = [] := by
  rw [List.filter_eq_nil_iff]
  intro e he hk
  exact h (List.mem_map.mpr ⟨e, he, by simpa using hk⟩)

theorem count_of_mem (k : GaugeKey) (l : List (GaugeKey × V))
    (hn : (l.map Prod.fst).Nodup) (h : k ∈ l.map Prod.fst) :
    (l.filter (fun e => decide (e.1 = k))).length = 1 := by
  induction l with
  | nil => simp at h
  | cons e rest ih =>
    obtain ⟨k0, v0⟩ := e
    rw [List.map_cons, List.nodup_cons] at hn
    by_cases h0 : k0 = k
    · subst h0
      simp [List.filter_cons, filter_key_of_not_mem k0 rest hn.1]
    · have hr : k ∈ rest.map Prod.fst := by
        rw [List.map_cons, List.mem_cons] at h
        rcases h with h | h
        · exact absurd h.symm h0
        · exact h
      simp [List.filter_cons, h0, ih hn.2 hr]

theorem GaugeVec.get_set_self (g : GaugeVec V) (k : GaugeKey) (v : V) :
    (g.set k v).get k = some v :=
  getMetric_setMetric_self k v g.metrics

theorem GaugeVec.get_set_ne (g : GaugeVec V) (k k1 : GaugeKey) (v : V) (hne : k1 ≠ k) :
    (g.set k v).get k1 = g.get k1 :=
  getMetric_setMetric_ne k k1 v g.metrics hne

theorem GaugeVec.count_eq_one_of_get (g : GaugeVec V) (k : GaugeKey) (v : V)
    (h : g.get k = some v) : g.count k = 1 := by
  apply count_of_mem k g.metrics g.nodup
  rw [← getMetric_isSome_iff]
  unfold GaugeVec.get at h
  rw [h]
  rfl

theorem GaugeVec.isSome_get_set (g : GaugeVec V) (k k1 : GaugeKey) (v : V)
    (h : (g.get k1).isSome = true) : ((g.set k v).get k1).isSome = true := by
  by_cases hk : k1 = k
  · subst hk
    rw [GaugeVec.get_set_self]
    rfl
  · rw [GaugeVec.get_set_ne g k k1 v hk]
    exact h

/-! ### Writing a list of rows -/

theorem applyRows_append (xs ys : List (Row V)) (g : GaugeVec V) :
    applyRows (xs ++ ys) g = applyRows ys (applyRows xs g) := by
  induction xs generalizing g with
  | nil => rfl
  | cons r rest ih => simp [applyRows, ih]

theorem get_applyRows_of_not_mem (rs : List (Row V)) (g : GaugeVec V) (k : GaugeKey)
    (h : k ∉ rs.map Row.key) : (applyRows rs g).get k = g.get k := by
  induction rs generalizing g with
  | nil => rfl
  | cons r rest ih =>
    rw [List.map_cons, List.mem_cons, not_or] at h
    simp only [applyRows]
    rw [ih _ h.2, GaugeVec.get_set_ne g r.key k r.tableSize h.1]

theorem isSome_get_applyRows (rs : List (Row V)) (g : GaugeVec V) (k : GaugeKey)
    (h : (g.get k).isSome = true) : ((applyRows rs g).get k).isSome = true := by
  induction rs generalizing g with
  | nil => exact h
  | cons r rest ih =>
    simp only [applyRows]
    exact ih _ (GaugeVec.isSome_get_set g r.key k r.tableSize h)

theorem metrics_applyRows_fresh (rs : List (Row V)) (g : GaugeVec V)
    (hn : (rs.map Row.key).Nodup) (hd : ∀ k ∈ rs.map Row.key, k ∉ g.keys) :
    (applyRows rs g).metrics = g.metrics ++ rs.map (fun r => (r.key, r.tableSize)) := by
  induction rs generalizing g with
  | nil => simp [applyRows]
  | cons r rest ih =>
    rw [List.map_cons, List.nodup_cons] at hn
    have hr : r.key ∉ g.metrics.map Prod.fst := hd r.key (by simp)
    have hset : (g.set r.key r.tableSize).metrics = g.metrics ++ [(r.key, r.tableSize)] :=
      setMetric_of_not_mem r.key r.tableSize g.metrics hr
    simp only [applyRows]
    rw [ih _ hn.2, hset]
    · simp
    · intro k hk hmem
      unfold GaugeVec.keys at hmem
      rw [hset, List.map_append, List.mem_append] at hmem
      rcases hmem with hmem | hmem
      · exact hd k (by simp only [List.map_cons, List.mem_cons]; exact Or.inr hk) hmem
      · simp only [List.map_cons, List.map_nil, List.mem_singleton] at hmem
        exact hn.1 (hmem ▸ hk)

theorem decodedRows_map_ok (rs : List (Row V)) :
    decodedRows (rs.map (Except.ok : Row V → Except Error (Row V))) = rs := by
  induction rs with
  | nil => rfl
  | cons r rest ih => simp [decodedRows, ih]

theorem decodedRows_decodableOnly (scans : List (Except Error (Row V))) :
    decodedRows (decodableOnly scans) = decodedRows scans := by
  induction scans with
  | nil => rfl
  | cons s rest ih => cases s <;> simp [decodedRows, decodableOnly, ih]

/-! ### The row loop -/

theorem rowLoop_gauge (scans : List (Except Error (Row V))) (st : Nat × World V) :
    (rowLoop scans st).2.tableSizeGauge = applyRows (decodedRows scans) st.2.tableSizeGauge := by
  induction scans generalizing st with
  | nil => rfl
  | cons s rest ih =>
    cases s with
    | error err => simp only [rowLoop, decodedRows, ih]; rfl
    | ok r => simp only [rowLoop, decodedRows, ih, applyRows]; rfl

theorem rowLoop_count (scans : List (Except Error (Row V))) (st : Nat × World V) :
    (rowLoop scans st).1 = st.1 + (decodedRows scans).length := by
  induction scans generalizing st with
  | nil => rfl
  | cons s rest ih =>
    cases s with
    | error err => simp only [rowLoop, decodedRows, ih]; rfl
    | ok r =>
      simp only [rowLoop, decodedRows, ih, List.length_cons, scanRow]
      omega

theorem rowLoop_trace (scans : List (Except Error (Row V))) (st : Nat × World V) :
    (rowLoop scans st).2.trace = st.2.trace ++ scanLogs scans := by
  induction scans generalizing st with
  | nil => simp [rowLoop, scanLogs]
  | cons s rest ih =>
    cases s with
    | error err =>
      simp only [rowLoop, scanLogs, ih, scanRow, World.logPrintf, World.emit]
      simp
    | ok r => simp only [rowLoop, scanLogs, ih, scanRow, World.setGauge]

theorem rowLoop_dbName (scans : List (Except Error (Row V))) (st : Nat × World V) :
    (rowLoop scans st).2.dbName = st.2.dbName := by
  induction scans generalizing st with
  | nil => rfl
  | cons s rest ih =>
    cases s with
    | error err => simp only [rowLoop, ih]; rfl
    | ok r => simp only [rowLoop, ih]; rfl

/-! ### One refresh cycle -/

theorem decoded_of_fetch (db : DB V) (rows : Rows V) (ho : db.openErr = none)
    (hp : db.pingErr = none) (hq : db.query = Except.ok rows) :
    db.decoded = decodedRows rows.scans := by
  unfold DB.decoded
  rw [ho, hp, hq]

theorem decoded_of_connect_error (db : DB V) (w : World V) (err : Error)
    (h : (connectDB db w).1 = Except.error err) : db.decoded = [] := by
  unfold DB.decoded
  unfold connectDB at h
  cases ho : db.openErr with
  | some e => rfl
  | none =>
    cases hp : db.pingErr with
    | some e => rfl
    | none => simp [ho, hp] at h

theorem decoded_of_query_error (db : DB V) (err : Error)
    (h : db.query = Except.error err) : db.decoded = [] := by
  unfold DB.decoded
  rw [h]
  cases db.openErr <;> cases db.pingErr <;> rfl

/-- The gauge vector after a cycle is the one before it with the rows the
cycle decoded written in order. -/
theorem updateMetrics_gauge (db : DB V) (w : World V) :
    (updateMetrics db w).tableSizeGauge = applyRows db.decoded w.tableSizeGauge := by
  obtain ⟨o, p, q, c⟩ := db
  cases o with
  | some e => rfl
  | none =>
    cases p with
    | some e => rfl
    | none =>
      cases q with
      | error e => cases c <;> rfl
      | ok rows =>
        obtain ⟨scans, re, rc⟩ := rows
        have h := rowLoop_gauge scans
          (0, (w.emit Event.dbOpened).emit Event.rowsOpened)
        simp only [DB.decoded]
        rw [← show (w.emit Event.dbOpened |>.emit Event.rowsOpened).tableSizeGauge
          = w.tableSizeGauge from rfl, ← h]
        cases re <;> cases rc <;> cases c <;> rfl

theorem filter_isResource_scanLogs (scans : List (Except Error (Row V))) :
    (scanLogs scans).filter Event.isResource = [] := by
  induction scans with
  | nil => rfl
  | cons s rest ih => cases s <;> simp [scanLogs, Event.isResource, ih]

theorem filter_isCycleMark_scanLogs (scans : List (Except Error (Row V))) :
    (scanLogs scans).filter Event.isCycleMark = [] := by
  induction scans with
  | nil => rfl
  | cons s rest ih => cases s <;> simp [scanLogs, Event.isCycleMark, ih]

/-- The events of a cycle whose connection and query succeed. -/
theorem updateMetrics_trace_fetch (db : DB V) (w : World V) (rows : Rows V)
    (ho : db.openErr = none) (hp : db.pingErr = none) (hq : db.query = Except.ok rows) :
    (updateMetrics db w).trace
      = w.trace ++ ([Event.dbOpened, Event.rowsOpened] ++ scanLogs rows.scans
          ++ (match rows.err with
              | some err => [Event.log (LogLine.iterError err)]
              | none => [])
          ++ [Event.log (LogLine.summary (decodedRows rows.scans).length w.dbName)]
          ++ (Event.rowsClosed :: match rows.closeErr with
              | some err => [Event.log (LogLine.closeRowsError err)]
              | none => [])
          ++ (Event.dbClosed :: match db.closeErr with
              | some err => [Event.log (LogLine.closeDbError err)]
              | none => [])) := by
  obtain ⟨o, p, q, c⟩ := db
  obtain ⟨scans, re, rc⟩ := rows
  simp only at ho hp hq
  subst ho hp hq
  have ht := rowLoop_trace scans (0, World.mk w.dbName w.tableSizeGauge
    (w.trace ++ [Event.dbOpened, Event.rowsOpened]))
  have hc := rowLoop_count scans (0, World.mk w.dbName w.tableSizeGauge
    (w.trace ++ [Event.dbOpened, Event.rowsOpened]))
  have hn := rowLoop_dbName scans (0, World.mk w.dbName w.tableSizeGauge
    (w.trace ++ [Event.dbOpened, Event.rowsOpened]))
  simp only [Nat.zero_add] at ht hc hn
  cases re <;> cases rc <;> cases c <;>
    simp [updateMetrics, connectDB, deferredCloseDB, deferredCloseRows, World.logPrintf,
      World.emit, ht, hc, hn]

/-- The events of a cycle that stops before the query succeeds. -/
theorem updateMetrics_trace_no_fetch (db : DB V) (w : World V) :
    (∀ e, db.openErr = some e →
      (updateMetrics db w).trace = w.trace ++ [Event.log (LogLine.connectError e)]) ∧
    (∀ e, db.openErr = none → db.pingErr = some e →
      (updateMetrics db w).trace
        = w.trace ++ [Event.dbOpened, Event.dbClosed, Event.log (LogLine.connectError e)]) ∧
    (∀ e, db.openErr = none → db.pingErr = none → db.query = Except.error e →
      (updateMetrics db w).trace
        = w.trace ++ ([Event.dbOpened, Event.log (LogLine.queryError e), Event.dbClosed]
            ++ match db.closeErr with
              | some err => [Event.log (LogLine.closeDbError err)]
              | none => [])) := by
  obtain ⟨o, p, q, c⟩ := db
  refine ⟨?_, ?_, ?_⟩
  · intro e ho
    simp only at ho
    subst ho
    simp [updateMetrics, connectDB, World.logPrintf, World.emit]
  · intro e ho hp
    simp only at ho hp
    subst ho hp
    simp [updateMetrics, connectDB, World.logPrintf, World.emit]
  · intro e ho hp hq
    simp only at ho hp hq
    subst ho hp hq
    cases c <;>
      simp [updateMetrics, connectDB, deferredCloseDB, World.logPrintf, World.emit]

/-- A cycle adds events to the trace; none of them is a call or return mark. -/
theorem updateMetrics_trace_append (db : DB V) (w : World V) :
    ∃ evs, (updateMetrics db w).trace = w.trace ++ evs ∧
      evs.filter Event.isCycleMark = [] := by
  cases ho : db.openErr with
  | some e =>
    exact ⟨_, (updateMetrics_trace_no_fetch db w).1 e ho, by simp [Event.isCycleMark]⟩
  | none =>
    cases hp : db.pingErr with
    | some e =>
      exact ⟨_, (updateMetrics_trace_no_fetch db w).2.1 e ho hp, by simp [Event.isCycleMark]⟩
    | none =>
      cases hq : db.query with
      | error e =>
        refine ⟨_, (updateMetrics_trace_no_fetch db w).2.2 e ho hp hq, ?_⟩
        cases db.closeErr <;> simp [Event.isCycleMark]
      | ok rows =>
        refine ⟨_, updateMetrics_trace_fetch db w rows ho hp hq, ?_⟩
        cases rows.err <;> cases rows.closeErr <;> cases db.closeErr <;>
          simp [Event.isCycleMark, filter_isCycleMark_scanLogs]

theorem updateMetrics_trace_cycleEvents (db : DB V) (w : World V) :
    (updateMetrics db w).trace = w.trace ++ cycleEvents db w := by
  obtain ⟨evs, h, _⟩ := updateMetrics_trace_append db w
  unfold cycleEvents
  rw [h, List.drop_left]

/-- The handles and cursors a cycle opens and closes, in order. -/
theorem cycleEvents_resources (db : DB V) (w : World V) :
    (cycleEvents db w).filter Event.isResource
      = match db.openErr, db.pingErr, db.query with
        | some _, _, _ => []
        | none, some _, _ => [Event.dbOpened, Event.dbClosed]
        | none, none, Except.error _ => [Event.dbOpened, Event.dbClosed]
        | none, none, Except.ok _ =>
          [Event.dbOpened, Event.rowsOpened, Event.rowsClosed, Event.dbClosed] := by
  unfold cycleEvents
  cases ho : db.openErr with
  | some e =>
    rw [(updateMetrics_trace_no_fetch db w).1 e ho, List.drop_left]
    simp [Event.isResource]
  | none =>
    cases hp : db.pingErr with
    | some e =>
      rw [(updateMetrics_trace_no_fetch db w).2.1 e ho hp, List.drop_left]
      simp [Event.isResource]
    | none =>
      cases hq : db.query with
      | error e =>
        rw [(updateMetrics_trace_no_fetch db w).2.2 e ho hp hq, List.drop_left]
        cases db.closeErr <;> simp [Event.isResource]
      | ok rows =>
        rw [updateMetrics_trace_fetch db w rows ho hp hq, List.drop_left]
        cases rows.err <;> cases rows.closeErr <;> cases db.closeErr <;>
          simp [Event.isResource, filter_isResource_scanLogs]

/-! ### The refresh loop -/

theorem callUpdateMetrics_gauge (db : DB V) (w : World V) :
    (callUpdateMetrics db w).tableSizeGauge = applyRows db.decoded w.tableSizeGauge := by
  unfold callUpdateMetrics
  exact updateMetrics_gauge db (w.emit Event.cycleStart)

theorem foldl_callUpdateMetrics_gauge (ticks : List (DB V)) (w : World V) :
    (ticks.foldl (fun acc db => callUpdateMetrics db acc) w).tableSizeGauge
      = applyRows (ticks.flatMap DB.decoded) w.tableSizeGauge := by
  induction ticks generalizing w with
  | nil => rfl
  | cons db rest ih =>
    rw [List.foldl_cons, ih, callUpdateMetrics_gauge, List.flatMap_cons, applyRows_append]

/-- The gauge vector after the loop has run its cycles is the initial one with
the rows decoded by all the cycles written in order. -/
theorem refreshLoop_gauge (first : DB V) (ticks : List (DB V)) (w : World V) :
    (refreshLoop first ticks w).tableSizeGauge
      = applyRows ((first :: ticks).flatMap DB.decoded) w.tableSizeGauge := by
  unfold refreshLoop
  rw [foldl_callUpdateMetrics_gauge, callUpdateMetrics_gauge, List.flatMap_cons,
    applyRows_append]

theorem callUpdateMetrics_trace (db : DB V) (w : World V) :
    ∃ evs, (callUpdateMetrics db w).trace = w.trace ++ evs ∧
      evs.filter Event.isCycleMark = [Event.cycleStart, Event.cycleReturn] := by
  obtain ⟨evs, h, hf⟩ := updateMetrics_trace_append db (w.emit Event.cycleStart)
  refine ⟨[Event.cycleStart] ++ evs ++ [Event.cycleReturn], ?_, ?_⟩
  · unfold callUpdateMetrics
    simp only [World.emit] at h ⊢
    rw [h]
    simp
  · simp [List.filter_append, hf, Event.isCycleMark]

theorem foldl_callUpdateMetrics_trace (ticks : List (DB V)) (w : World V) :
    ∃ evs, (ticks.foldl (fun acc db => callUpdateMetrics db acc) w).trace = w.trace ++ evs ∧
      evs.filter Event.isCycleMark
        = (List.replicate ticks.length [Event.cycleStart, Event.cycleReturn]).flatten := by
  induction ticks generalizing w with
  | nil => exact ⟨[], by simp, by simp⟩
  | cons db rest ih =>
    obtain ⟨e1, h1, f1⟩ := callUpdateMetrics_trace db w
    obtain ⟨e2, h2, f2⟩ := ih (callUpdateMetrics db w)
    refine ⟨e1 ++ e2, ?_, ?_⟩
    · rw [List.foldl_cons, h2, h1, List.append_assoc]
    · rw [List.filter_append, f1, f2, List.length_cons, List.replicate_succ,
        List.flatten_cons]

/-! ### Line 87 step by step -/

theorem setMetric_setMetric (k : GaugeKey) (u v : V) (l : List (GaugeKey × V)) :
    setMetric k v (setMetric k u l) = setMetric k v l := by
  induction l with
  | nil => simp [setMetric]
  | cons e rest ih =>
    obtain ⟨k0, v0⟩ := e
    by_cases h : k0 = k
    · simp [setMetric, h]
    · simp [setMetric, h, ih]

theorem GaugeVec.set_getOrCreate [Zero V] (g : GaugeVec V) (k : GaugeKey) (v : V) :
    (g.getOrCreate k).set k v = g.set k v := by
  unfold GaugeVec.getOrCreate
  cases g.get k with
  | some _ => rfl
  | none => exact GaugeVec.ext_metrics (setMetric_setMetric k 0 v g.metrics)

theorem GaugeVec.get_getOrCreate_ne [Zero V] (g : GaugeVec V) (k k1 : GaugeKey)
    (hne : k1 ≠ k) : (g.getOrCreate k).get k1 = g.get k1 := by
  unfold GaugeVec.getOrCreate
  cases g.get k with
  | some _ => rfl
  | none => exact GaugeVec.get_set_ne g k k1 0 hne

theorem GaugeVec.get_getOrCreate_self [Zero V] (g : GaugeVec V) (k : GaugeKey) :
    (g.getOrCreate k).get k = g.get k ∨
      (g.get k = none ∧ (g.getOrCreate k).get k = some 0) := by
  unfold GaugeVec.getOrCreate
  cases h : g.get k with
  | some _ => exact Or.inl h
  | none => exact Or.inr ⟨rfl, GaugeVec.get_set_self g k 0⟩

theorem detailed_setTableSize_text [Zero V] (r : Row V) (w : World V) :
    Detailed.setTableSize r.toScanned w = (Outcome.returned, w.setGauge r) := by
  simp only [Detailed.setTableSize, Row.toScanned, ScannedRow.text?, World.setGauge,
    GaugeVec.set_getOrCreate]

theorem detailed_rowLoop_text [Zero V] (scans : List (Except Error (Row V)))
    (st : Nat × World V) :
    Detailed.rowLoop (scans.map textScan) st = (Outcome.returned, rowLoop scans st) := by
  induction scans generalizing st with
  | nil => rfl
  | cons s rest ih =>
    cases s with
    | error err =>
      simp only [List.map_cons, textScan, Detailed.rowLoop, rowLoop, scanRow, ih]
    | ok r =>
      simp only [List.map_cons, textScan, Detailed.rowLoop, rowLoop, scanRow,
        detailed_setTableSize_text, ih]

/-- On a source whose rows all have names that are text, the detailed cycle
returns, and with the world `updateMetrics` gives. -/
theorem detailed_updateMetrics_toSource [Zero V] (db : DB V) (w : World V) :
    Detailed.updateMetrics db.toSource w = (Outcome.returned, updateMetrics db w) := by
  obtain ⟨o, p, q, c⟩ := db
  cases o with
  | some e => rfl
  | none =>
    cases p with
    | some e => rfl
    | none =>
      cases q with
      | error e => rfl
      | ok rows =>
        simp only [Detailed.updateMetrics, Detailed.connectDB, DB.toSource, Rows.toScanned,
          detailed_rowLoop_text, updateMetrics, connectDB]
        rfl

theorem detailed_rowLoop_gauge [Zero V] (scans : List (Except Error (ScannedRow V)))
    (st : Nat × World V) :
    (Detailed.rowLoop scans st).2.2.tableSizeGauge
      = applyRows (writtenRows scans) st.2.tableSizeGauge := by
  induction scans generalizing st with
  | nil => rfl
  | cons s rest ih =>
    cases s with
    | error err => simp only [Detailed.rowLoop, writtenRows, ih]; rfl
    | ok row =>
      cases ht : row.text? with
      | none => simp only [Detailed.rowLoop, Detailed.setTableSize, writtenRows, ht]; rfl
      | some r =>
        simp only [Detailed.rowLoop, Detailed.setTableSize, writtenRows, ht, ih, applyRows,
          GaugeVec.set_getOrCreate]

/-- The gauge vector when a detailed cycle ends is the one before it with the
rows the cycle wrote. -/
theorem detailed_updateMetrics_gauge [Zero V] (src : Source V) (w : World V) :
    (Detailed.updateMetrics src w).2.tableSizeGauge
      = applyRows src.written w.tableSizeGauge := by
  obtain ⟨o, p, q, c⟩ := src
  cases o with
  | some e => rfl
  | none =>
    cases p with
    | some e => rfl
    | none =>
      cases q with
      | error e => cases c <;> rfl
      | ok rows =>
        obtain ⟨scans, re, rc⟩ := rows
        have h := detailed_rowLoop_gauge scans
          (0, (w.emit Event.dbOpened).emit Event.rowsOpened)
        simp only [Source.written]
        rw [← show (w.emit Event.dbOpened |>.emit Event.rowsOpened).tableSizeGauge
          = w.tableSizeGauge from rfl, ← h]
        simp only [Detailed.updateMetrics, Detailed.connectDB]
        cases hl : Detailed.rowLoop scans (0, (w.emit Event.dbOpened).emit Event.rowsOpened) with
        | mk out st =>
          cases out <;> cases re <;> cases rc <;> cases c <;> rfl

theorem rowStates_mem [Zero V] (scans : List (Except Error (ScannedRow V)))
    (g g0 : GaugeVec V) (h : g0 ∈ Detailed.rowStates scans g) :
    ∃ done todo, writtenRows scans = done ++ todo ∧
      (g0 = applyRows done g ∨
        ∃ r rest, todo = r :: rest ∧ g0 = (applyRows done g).getOrCreate r.key) := by
  induction scans generalizing g with
  | nil =>
    simp only [Detailed.rowStates, List.mem_singleton] at h
    exact ⟨[], [], rfl, Or.inl h⟩
  | cons s rest ih =>
    cases s with
    | error err =>
      simp only [Detailed.rowStates] at h
      exact ih g h
    | ok row =>
      cases ht : row.text? with
      | none =>
        simp only [Detailed.rowStates, ht, List.mem_singleton] at h
        exact ⟨[], _, rfl, Or.inl h⟩
      | some r =>
        simp only [Detailed.rowStates, ht, List.mem_cons] at h
        rcases h with h | h | h
        · exact ⟨[], _, rfl, Or.inl h⟩
        · exact ⟨[], _, rfl, Or.inr ⟨r, writtenRows rest, by simp [writtenRows, ht], h⟩⟩
        · obtain ⟨done, todo, hw, hg⟩ := ih _ h
          refine ⟨r :: done, todo, by simp [writtenRows, ht, hw], ?_⟩
          simp only [applyRows]
          rw [GaugeVec.set_getOrCreate] at hg
          exact hg

theorem cycleStates_mem [Zero V] (src : Source V) (w : World V) (g0 : GaugeVec V)
    (h : g0 ∈ Detailed.cycleStates src w) :
    ∃ done todo, src.written = done ++ todo ∧
      (g0 = applyRows done w.tableSizeGauge ∨
        ∃ r rest, todo = r :: rest ∧
          g0 = (applyRows done w.tableSizeGauge).getOrCreate r.key) := by
  obtain ⟨o, p, q, c⟩ := src
  cases o with
  | some e =>
    simp only [Detailed.cycleStates, Detailed.connectDB, List.mem_singleton] at h
    exact ⟨[], _, rfl, Or.inl h⟩
  | none =>
    cases p with
    | some e =>
      simp only [Detailed.cycleStates, Detailed.connectDB, List.mem_singleton] at h
      exact ⟨[], _, rfl, Or.inl h⟩
    | none =>
      cases q with
      | error e =>
        simp only [Detailed.cycleStates, Detailed.connectDB, List.mem_singleton] at h
        exact ⟨[], _, rfl, Or.inl h⟩
      | ok rows =>
        simp only [Detailed.cycleStates, Detailed.connectDB] at h
        exact rowStates_mem rows.scans _ g0 h

theorem rowStates_head_last [Zero V] (scans : List (Except Error (ScannedRow V)))
    (g : GaugeVec V) :
    (Detailed.rowStates scans g).head? = some g ∧
      (Detailed.rowStates scans g).getLast? = some (applyRows (writtenRows scans) g) := by
  induction scans generalizing g with
  | nil => exact ⟨rfl, rfl⟩
  | cons s rest ih =>
    cases s with
    | error err => exact ih g
    | ok row =>
      cases ht : row.text? with
      | none => simp [Detailed.rowStates, writtenRows, ht, applyRows]
      | some r =>
        have h2 := (ih ((g.getOrCreate r.key).set r.key r.tableSize)).2
        obtain ⟨x, xs, hx⟩ : ∃ x xs,
            Detailed.rowStates rest ((g.getOrCreate r.key).set r.key r.tableSize) = x :: xs := by
          cases h : Detailed.rowStates rest ((g.getOrCreate r.key).set r.key r.tableSize) with
          | nil => rw [h] at h2; simp at h2
          | cons x xs => exact ⟨x, xs, rfl⟩
        rw [hx] at h2
        simp only [Detailed.rowStates, writtenRows, ht, applyRows, hx, List.head?_cons,
          List.getLast?_cons_cons, true_and]
        rw [h2, GaugeVec.set_getOrCreate]

/-- The values the gauge vector takes during a cycle start with the vector of
before the cycle and end with the vector the cycle leaves. -/
theorem cycleStates_head_last [Zero V] (src : Source V) (w : World V) :
    (Detailed.cycleStates src w).head? = some w.tableSizeGauge ∧
      (Detailed.cycleStates src w).getLast?
        = some (Detailed.updateMetrics src w).2.tableSizeGauge := by
  rw [detailed_updateMetrics_gauge]
  obtain ⟨o, p, q, c⟩ := src
  cases o with
  | some e => exact ⟨rfl, rfl⟩
  | none =>
    cases p with
    | some e => exact ⟨rfl, rfl⟩
    | none =>
      cases q with
      | error e => exact ⟨rfl, rfl⟩
      | ok rows => exact rowStates_head_last rows.scans w.tableSizeGauge

/-! ### Cycles over rows whose names are text -/

/-- On rows whose names are text: a cycle on an empty gauge vector whose query
delivers rows that all decode, with pairwise distinct label pairs, leaves
exactly one gauge per row and no other gauge. -/
theorem updateMetrics_text_rows_one_gauge_per_row (db : DB V) (w : World V) (cur : Rows V)
    (rows : List (Row V)) (hempty : w.tableSizeGauge = GaugeVec.empty)
    (ho : db.openErr = none) (hp : db.pingErr = none) (hq : db.query = Except.ok cur)
    (hscans : cur.scans = rows.map Except.ok) (hdistinct : (rows.map Row.key).Nodup) :
    (updateMetrics db w).tableSizeGauge.metrics
        = rows.map (fun r => (GaugeKey.mk r.tableName r.databaseName, r.tableSize)) ∧
      (∀ r ∈ rows, (updateMetrics db w).tableSizeGauge.get r.key = some r.tableSize ∧
        (updateMetrics db w).tableSizeGauge.count r.key = 1) ∧
      (∀ k, k ∉ rows.map Row.key → (updateMetrics db w).tableSizeGauge.get k = none) := by
  have hm : (updateMetrics db w).tableSizeGauge.metrics
      = rows.map (fun r => (r.key, r.tableSize)) := by
    rw [updateMetrics_gauge, decoded_of_fetch db cur ho hp hq, hscans, decodedRows_map_ok,
      metrics_applyRows_fresh rows _ hdistinct, hempty]
    · rfl
    · intro k _
      rw [hempty]
      simp [GaugeVec.keys, GaugeVec.empty]
  have hk : (updateMetrics db w).tableSizeGauge.metrics.map Prod.fst = rows.map Row.key := by
    rw [hm, List.map_map]
    rfl
  have hget : ∀ r ∈ rows, (updateMetrics db w).tableSizeGauge.get r.key = some r.tableSize := by
    intro r hr
    obtain ⟨pre, post, hsplit⟩ := List.append_of_mem hr
    have hpre : r.key ∉ pre.map Row.key := by
      rw [hsplit, List.map_append, List.map_cons] at hdistinct
      have h3 := (List.nodup_append.mp hdistinct).2.2
      intro hin
      exact h3 hin (List.mem_cons_self _ _)
    have hpost : r.key ∉ post.map Row.key := by
      rw [hsplit, List.map_append, List.map_cons] at hdistinct
      exact (List.nodup_cons.mp (List.nodup_append.mp hdistinct).2.1).1
    rw [updateMetrics_gauge, decoded_of_fetch db cur ho hp hq, hscans, decodedRows_map_ok,
      hsplit, applyRows_append]
    simp only [applyRows]
    rw [get_applyRows_of_not_mem post _ _ hpost, GaugeVec.get_set_self]
  refine ⟨hm, ?_, ?_⟩
  · intro r hr
    exact ⟨hget r hr, GaugeVec.count_eq_one_of_get _ _ _ (hget r hr)⟩
  · intro k hk2
    cases hg : (updateMetrics db w).tableSizeGauge.get k with
    | none => rfl
    | some v =>
      have h1 : k ∈ (updateMetrics db w).tableSizeGauge.metrics.map Prod.fst := by
        rw [← getMetric_isSome_iff]
        unfold GaugeVec.get at hg
        rw [hg]
        rfl
      rw [hk] at h1
      exact absurd h1 hk2

/-- On rows whose names are text, rows that fail to decode do not end the
cycle: the gauge vector after it is the one the same cycle produces over the
decodable rows alone, every decodable row is written, and the summary line is
logged. -/
theorem updateMetrics_text_rows_skip_undecodable (db : DB V) (w : World V) (cur : Rows V)
    (ho : db.openErr = none) (hp : db.pingErr = none) (hq : db.query = Except.ok cur) :
    (updateMetrics db w).tableSizeGauge
        = (updateMetrics
            { db with query := Except.ok { cur with scans := decodableOnly cur.scans } }
            w).tableSizeGauge ∧
      (updateMetrics db w).tableSizeGauge
        = applyRows (decodedRows cur.scans) w.tableSizeGauge ∧
      Event.log (LogLine.summary (decodedRows cur.scans).length w.dbName)
        ∈ (updateMetrics db w).trace := by
  refine ⟨?_, ?_, ?_⟩
  · rw [updateMetrics_gauge, updateMetrics_gauge, decoded_of_fetch db cur ho hp hq,
      decoded_of_fetch
        { db with query := Except.ok { cur with scans := decodableOnly cur.scans } }
        { cur with scans := decodableOnly cur.scans } ho hp rfl]
    simp only [decodedRows_decodableOnly]
  · rw [updateMetrics_gauge, decoded_of_fetch db cur ho hp hq]
  · rw [updateMetrics_trace_fetch db w cur ho hp hq]
    simp

end Program

section Claims

variable {V : Type}

/-- C1: when `connectDB` returns an error (from `sql.Open` or from `Ping`) or
`db.Query` returns an error, the gauge vector after `updateMetrics` is the gauge
vector before it. -/
theorem updateMetrics_fetch_failure_keeps_registry (db : DB V) (w : World V)
    (h : (∃ err, (connectDB db w).1 = Except.error err) ∨
      (∃ err, db.query = Except.error err)) :
    (updateMetrics db w).tableSizeGauge = w.tableSizeGauge := by
  rw [updateMetrics_gauge]
  rcases h with ⟨err, h⟩ | ⟨err, h⟩
  · rw [decoded_of_connect_error db w err h]
    rfl
  · rw [decoded_of_query_error db err h]
    rfl

theorem updateMetrics_fetch_failure_keeps_registry_witness :
    (updateMetrics pingFailsDB staleWorld).tableSizeGauge = staleWorld.tableSizeGauge ∧
      staleWorld.tableSizeGauge.get usersKey = some 512 :=
  ⟨updateMetrics_fetch_failure_keeps_registry pingFailsDB staleWorld
    (Or.inl ⟨"dial tcp: connection refused", rfl⟩), by decide⟩

/-- C2, as stated, fails: two rows decode, with distinct label pairs, and the
table name of the second is not valid UTF-8. `With` panics on it, the cycle ends
there, and the vector that was empty holds one gauge, not one per row. -/
theorem detailed_updateMetrics_panics_on_invalid_name :
    (Detailed.updateMetrics invalidNameSource freshWorld).1 = Outcome.panicked ∧
      (Detailed.updateMetrics invalidNameSource freshWorld).2.tableSizeGauge.metrics
        = [(usersKey, 1024)] := by
  decide

/-- C2, amended: a cycle on an empty gauge vector whose query delivers rows that
all decode, with names that are valid UTF-8 and pairwise distinct label pairs,
returns and leaves exactly one gauge per row, labelled with the table and
database of the row and holding its size, and no other gauge. -/
theorem detailed_updateMetrics_one_gauge_per_row [Zero V] (src : Source V) (w : World V)
    (cur : ScannedRows V) (rows : List (Row V))
    (hempty : w.tableSizeGauge = GaugeVec.empty)
    (ho : src.openErr = none) (hp : src.pingErr = none) (hq : src.query = Except.ok cur)
    (hscans : cur.scans = rows.map (fun r => Except.ok r.toScanned))
    (hdistinct : (rows.map Row.key).Nodup) :
    (Detailed.updateMetrics src w).1 = Outcome.returned ∧
      (Detailed.updateMetrics src w).2.tableSizeGauge.metrics
        = rows.map (fun r => (GaugeKey.mk r.tableName r.databaseName, r.tableSize)) ∧
      (∀ r ∈ rows,
        (Detailed.updateMetrics src w).2.tableSizeGauge.get r.key = some r.tableSize ∧
        (Detailed.updateMetrics src w).2.tableSizeGauge.count r.key = 1) ∧
      (∀ k, k ∉ rows.map Row.key →
        (Detailed.updateMetrics src w).2.tableSizeGauge.get k = none) := by
  have hsrc : src = (DB.mk none none
      (Except.ok ⟨rows.map Except.ok, cur.err, cur.closeErr⟩) src.closeErr).toSource := by
    obtain ⟨o, p, q, c⟩ := src
    obtain ⟨sc, e, ce⟩ := cur
    simp only at ho hp hq hscans
    subst ho hp hq hscans
    simp [DB.toSource, Rows.toScanned, textScan]
  rw [hsrc, detailed_updateMetrics_toSource]
  exact ⟨rfl, updateMetrics_text_rows_one_gauge_per_row _ w
    ⟨rows.map Except.ok, cur.err, cur.closeErr⟩ rows hempty rfl rfl rfl rfl hdistinct⟩

theorem detailed_updateMetrics_one_gauge_per_row_witness :
    (Detailed.updateMetrics twoRowsDB.toSource freshWorld).1 = Outcome.returned ∧
      (Detailed.updateMetrics twoRowsDB.toSource freshWorld).2.tableSizeGauge.metrics
        = [(GaugeKey.mk "users" "app", 1024), (GaugeKey.mk "orders" "app", 2048)] :=
  have h := detailed_updateMetrics_one_gauge_per_row twoRowsDB.toSource freshWorld
    ⟨[Except.ok usersRow.toScanned, Except.ok ordersRow.toScanned], none, none⟩
    [usersRow, ordersRow] rfl rfl rfl rfl rfl (by decide)
  ⟨h.1, h.2.1⟩

/-- C3, as stated, fails: the first row does not decode, the second decodes
with a table name that is not valid UTF-8, the third is `app.orders`. `With`
panics on the second row: the cycle does not reach the end of the rows, logs no
summary, and `app.orders` is not written. -/
theorem detailed_updateMetrics_stops_at_invalid_name :
    (Detailed.updateMetrics undecodableThenInvalidSource freshWorld).1 = Outcome.panicked ∧
      (Detailed.updateMetrics undecodableThenInvalidSource freshWorld).2.trace
        = [Event.dbOpened, Event.rowsOpened,
            Event.log (LogLine.scanError "converting NULL to float64"),
            Event.rowsClosed, Event.dbClosed] ∧
      (Detailed.updateMetrics undecodableThenInvalidSource freshWorld).2.tableSizeGauge.get
        ordersKey = none := by
  decide

/-- C3, amended: when the rows that decode have names that are valid UTF-8,
rows that fail to decode do not end the cycle. The cycle returns; the gauge
vector after it is the one the same cycle produces over the decodable rows
alone, in the same order; every decodable row is written, also after a failure;
and the cycle reaches its summary line, which counts the decodable rows. -/
theorem detailed_updateMetrics_skips_undecodable_rows [Zero V] (src : Source V)
    (w : World V) (cur : ScannedRows V) (scans : List (Except Error (Row V)))
    (ho : src.openErr = none) (hp : src.pingErr = none) (hq : src.query = Except.ok cur)
    (hscans : cur.scans = scans.map textScan) :
    (Detailed.updateMetrics src w).1 = Outcome.returned ∧
      (Detailed.updateMetrics src w).2.tableSizeGauge
        = (Detailed.updateMetrics
            (Source.mk src.openErr src.pingErr
              (Except.ok (ScannedRows.mk ((decodableOnly scans).map textScan) cur.err
                cur.closeErr))
              src.closeErr)
            w).2.tableSizeGauge ∧
      (Detailed.updateMetrics src w).2.tableSizeGauge
        = applyRows (decodedRows scans) w.tableSizeGauge ∧
      Event.log (LogLine.summary (decodedRows scans).length w.dbName)
        ∈ (Detailed.updateMetrics src w).2.trace := by
  have hsrc : src = (DB.mk none none
      (Except.ok ⟨scans, cur.err, cur.closeErr⟩) src.closeErr).toSource := by
    obtain ⟨o, p, q, c⟩ := src
    obtain ⟨sc, e, ce⟩ := cur
    simp only at ho hp hq hscans
    subst ho hp hq hscans
    simp [DB.toSource, Rows.toScanned]
  have hsrc2 : Source.mk src.openErr src.pingErr
        (Except.ok (ScannedRows.mk ((decodableOnly scans).map textScan) cur.err
          cur.closeErr))
        src.closeErr
      = (DB.mk none none
          (Except.ok ⟨decodableOnly scans, cur.err, cur.closeErr⟩) src.closeErr).toSource := by
    obtain ⟨o, p, q, c⟩ := src
    simp only at ho hp
    subst ho hp
    simp [DB.toSource, Rows.toScanned]
  have h := updateMetrics_text_rows_skip_undecodable
    (DB.mk none none (Except.ok ⟨scans, cur.err, cur.closeErr⟩) src.closeErr) w
    ⟨scans, cur.err, cur.closeErr⟩ rfl rfl rfl
  rw [hsrc2, hsrc, detailed_updateMetrics_toSource, detailed_updateMetrics_toSource]
  exact ⟨rfl, h.1, h.2.1, h.2.2⟩

theorem detailed_updateMetrics_skips_undecodable_rows_witness :
    (Detailed.updateMetrics badRowDB.toSource staleWorld).1 = Outcome.returned ∧
      (Detailed.updateMetrics badRowDB.toSource staleWorld).2.tableSizeGauge
        = applyRows [usersRow, ordersRow] staleWorld.tableSizeGauge :=
  have h := detailed_updateMetrics_skips_undecodable_rows badRowDB.toSource staleWorld
    ⟨[Except.ok usersRow.toScanned, Except.error "converting NULL to float64",
      Except.ok ordersRow.toScanned], none, none⟩
    [Except.ok usersRow, Except.error "converting NULL to float64", Except.ok ordersRow]
    rfl rfl rfl rfl
  ⟨h.1, h.2.2.1⟩

/-- C4: a cycle of any kind removes no gauge, and a label pair that is not the
one of a row decoded in this cycle keeps its value; a cycle whose query returns
no row leaves the gauge vector as it was. -/
theorem updateMetrics_frame (db : DB V) (w : World V) :
    (∀ k, (w.tableSizeGauge.get k).isSome = true →
      ((updateMetrics db w).tableSizeGauge.get k).isSome = true) ∧
    (∀ k, k ∉ db.decoded.map Row.key →
      (updateMetrics db w).tableSizeGauge.get k = w.tableSizeGauge.get k) ∧
    (∀ cur, db.query = Except.ok cur → cur.scans = [] →
      (updateMetrics db w).tableSizeGauge = w.tableSizeGauge) := by
  refine ⟨?_, ?_, ?_⟩
  · intro k hk
    rw [updateMetrics_gauge]
    exact isSome_get_applyRows _ _ k hk
  · intro k hk
    rw [updateMetrics_gauge]
    exact get_applyRows_of_not_mem _ _ k hk
  · intro cur hq hs
    rw [updateMetrics_gauge]
    have hd : db.decoded = [] := by
      unfold DB.decoded
      rw [hq]
      cases db.openErr <;> cases db.pingErr <;> simp [hs, decodedRows]
    rw [hd]
    rfl

theorem updateMetrics_frame_witness :
    (updateMetrics zeroRowsDB staleWorld).tableSizeGauge = staleWorld.tableSizeGauge ∧
      (updateMetrics twoRowsDB staleWorld).tableSizeGauge.get (GaugeKey.mk "carts" "app")
        = staleWorld.tableSizeGauge.get (GaugeKey.mk "carts" "app") :=
  ⟨(updateMetrics_frame zeroRowsDB staleWorld).2.2 ⟨[], none, none⟩ rfl rfl,
    (updateMetrics_frame twoRowsDB staleWorld).2.1 (GaugeKey.mk "carts" "app") (by decide)⟩

/-- C5, as stated, fails: a source that delivers one decodable row and then
ends the iteration with an error leaves the gauge of that row in the vector. -/
theorem updateMetrics_broken_stream_changes_registry :
    brokenStreamDB.openErr = none ∧ brokenStreamDB.pingErr = none ∧
      (∃ cur err, brokenStreamDB.query = Except.ok cur ∧ cur.err = some err) ∧
      (updateMetrics brokenStreamDB freshWorld).tableSizeGauge ≠ freshWorld.tableSizeGauge ∧
      freshWorld.tableSizeGauge.get usersKey = none ∧
      (updateMetrics brokenStreamDB freshWorld).tableSizeGauge.get usersKey = some 1024 :=
  ⟨rfl, rfl, ⟨_, _, rfl, rfl⟩, by decide, by decide, by decide⟩

/-- C5, amended: when the connection and the query succeed and the iteration
ends with `rows.Err()` non-nil, the error is logged and the gauge vector is the
one before the cycle with the rows decoded before the failure written in order;
it is the one before the cycle when no row was decoded. -/
theorem updateMetrics_iteration_error_keeps_written_rows (db : DB V) (w : World V)
    (cur : Rows V) (err : Error) (ho : db.openErr = none) (hp : db.pingErr = none)
    (hq : db.query = Except.ok cur) (he : cur.err = some err) :
    (updateMetrics db w).tableSizeGauge
        = applyRows (decodedRows cur.scans) w.tableSizeGauge ∧
      (decodedRows cur.scans = [] →
        (updateMetrics db w).tableSizeGauge = w.tableSizeGauge) ∧
      Event.log (LogLine.iterError err) ∈ (updateMetrics db w).trace := by
  have hg : (updateMetrics db w).tableSizeGauge
      = applyRows (decodedRows cur.scans) w.tableSizeGauge := by
    rw [updateMetrics_gauge, decoded_of_fetch db cur ho hp hq]
  refine ⟨hg, ?_, ?_⟩
  · intro hnone
    rw [hg, hnone]
    rfl
  · rw [updateMetrics_trace_fetch db w cur ho hp hq, he]
    simp

theorem updateMetrics_iteration_error_keeps_written_rows_witness :
    (updateMetrics brokenStreamDB staleWorld).tableSizeGauge
      = applyRows [usersRow] staleWorld.tableSizeGauge :=
  (updateMetrics_iteration_error_keeps_written_rows brokenStreamDB staleWorld
    ⟨[Except.ok usersRow], some "invalid connection", none⟩ "invalid connection"
    rfl rfl rfl rfl).1

/-- C6: when the rows decoded by the cycles of the loop, taken in order,
contain a row for the label pair `k` with size `v1`, later (in the same cycle
or in a later one) a row for `k` with size `v2`, and no row for `k` after that
one, the gauge vector holds exactly one gauge for `k` and its value is `v2`.
The rows between the two writes are not restricted: a write to `k` among them is
overwritten as well. -/
theorem refreshLoop_last_write_wins (first : DB V) (ticks : List (DB V)) (w : World V)
    (k : GaugeKey) (v1 v2 : V) (pre mid post : List (Row V))
    (hrows : (first :: ticks).flatMap DB.decoded
      = pre ++ [Row.mk k.database_name k.table_name v1] ++ mid
          ++ [Row.mk k.database_name k.table_name v2] ++ post)
    (hpost : k ∉ post.map Row.key) :
    (refreshLoop first ticks w).tableSizeGauge.get k = some v2 ∧
      (refreshLoop first ticks w).tableSizeGauge.count k = 1 := by
  have hget : (refreshLoop first ticks w).tableSizeGauge.get k = some v2 := by
    rw [refreshLoop_gauge, hrows, applyRows_append, get_applyRows_of_not_mem post _ k hpost,
      applyRows_append]
    simp only [applyRows]
    exact GaugeVec.get_set_self _ k v2
  exact ⟨hget, GaugeVec.count_eq_one_of_get _ k v2 hget⟩

theorem refreshLoop_last_write_wins_witness :
    ((refreshLoop twoRowsDB [usersGrownDB] staleWorld).tableSizeGauge.get usersKey = some 4096 ∧
      (refreshLoop twoRowsDB [usersGrownDB] staleWorld).tableSizeGauge.count usersKey = 1) ∧
    ((refreshLoop
        ⟨none, none, Except.ok ⟨[Except.ok ⟨"app", "users", 1⟩, Except.ok ⟨"app", "users", 2⟩],
          none, none⟩, none⟩ [] freshWorld).tableSizeGauge.get usersKey = some 2 ∧
      (refreshLoop
        ⟨none, none, Except.ok ⟨[Except.ok ⟨"app", "users", 1⟩, Except.ok ⟨"app", "users", 2⟩],
          none, none⟩, none⟩ [] freshWorld).tableSizeGauge.count usersKey = 1) :=
  ⟨refreshLoop_last_write_wins twoRowsDB [usersGrownDB] staleWorld usersKey 1024 4096
      [] [ordersRow] [] rfl (by decide),
    refreshLoop_last_write_wins _ [] freshWorld usersKey 1 2 [] [] [] rfl (by decide)⟩

/-- C7: each call of `updateMetrics` closes the database handle and the cursor
it opened, once each, before it returns: no handle when `sql.Open` fails; a
handle opened and closed when `Ping` or `db.Query` fails; a handle and a cursor
opened, the cursor closed and then the handle closed, otherwise (whatever the
rows and `rows.Err()` are). The numbers of open handles and open cursors after
the call are those before it. -/
theorem updateMetrics_closes_what_it_opens (db : DB V) (w : World V) :
    (updateMetrics db w).trace = w.trace ++ cycleEvents db w ∧
      (cycleEvents db w).filter Event.isResource
        = (match db.openErr, db.pingErr, db.query with
          | some _, _, _ => []
          | none, some _, _ => [Event.dbOpened, Event.dbClosed]
          | none, none, Except.error _ => [Event.dbOpened, Event.dbClosed]
          | none, none, Except.ok _ =>
            [Event.dbOpened, Event.rowsOpened, Event.rowsClosed, Event.dbClosed]) ∧
      openHandles (updateMetrics db w).trace = openHandles w.trace ∧
      openCursors (updateMetrics db w).trace = openCursors w.trace := by
  have ht := updateMetrics_trace_cycleEvents db w
  have hr := cycleEvents_resources db w
  have hc : ∀ e : Event, e.isResource = true →
      (cycleEvents db w).count e = ((cycleEvents db w).filter Event.isResource).count e :=
    fun e he => (List.count_filter he).symm
  have h1 := hc Event.dbOpened rfl
  have h2 := hc Event.dbClosed rfl
  have h3 := hc Event.rowsOpened rfl
  have h4 := hc Event.rowsClosed rfl
  refine ⟨ht, hr, ?_, ?_⟩
  · unfold openHandles
    rw [ht, List.count_append, List.count_append, h1, h2, hr]
    cases db.openErr <;> cases db.pingErr <;> cases db.query <;> simp
  · unfold openCursors
    rw [ht, List.count_append, List.count_append, h3, h4, hr]
    cases db.openErr <;> cases db.pingErr <;> cases db.query <;> simp

/-- C8, as stated, fails: between the two gauge writes of a cycle over two rows
a scrape reads a vector in which `app.users` has its value of after the cycle
and `app.orders` is still absent as before the cycle; that vector is neither the
one before the cycle nor the one after it. -/
theorem scrape_between_writes_sees_half_a_cycle :
    (Detailed.cycleStates twoRowsDB.toSource freshWorld)[2]? = some usersOnly ∧
      CanScrape (Detailed.cycleStates twoRowsDB.toSource freshWorld) usersOnly.get ∧
      usersOnly ≠ freshWorld.tableSizeGauge ∧
      usersOnly ≠ (Detailed.updateMetrics twoRowsDB.toSource freshWorld).2.tableSizeGauge ∧
      usersOnly.get usersKey = some 1024 ∧
      freshWorld.tableSizeGauge.get usersKey = none ∧
      usersOnly.get ordersKey = none ∧
      (Detailed.updateMetrics twoRowsDB.toSource freshWorld).2.tableSizeGauge.get ordersKey
        = some 2048 :=
  ⟨by decide, fun _ => ⟨usersOnly, by decide, rfl⟩, by decide, by decide, by decide,
    by decide, by decide, by decide⟩

/-- C8, amended: when the rows a cycle writes have pairwise distinct label
pairs, a scrape that runs during the cycle reports, for every label pair taken
alone, its value of before the cycle, or its value of after the cycle, or, for
a pair that had no gauge before the cycle, the 0 of the child that `With` has
created and `Set` has not yet written. Different pairs can be in different
states. -/
theorem scrape_during_cycle_per_key [Zero V] (src : Source V) (w : World V)
    (obs : GaugeKey → Option V) (hobs : CanScrape (Detailed.cycleStates src w) obs)
    (hdistinct : (src.written.map Row.key).Nodup) (k : GaugeKey) :
    obs k = w.tableSizeGauge.get k ∨
      obs k = (Detailed.updateMetrics src w).2.tableSizeGauge.get k ∨
      (w.tableSizeGauge.get k = none ∧ obs k = some 0) := by
  obtain ⟨g0, hg0, hk⟩ := hobs k
  obtain ⟨done, todo, hw, hcase⟩ := cycleStates_mem src w g0 hg0
  have hpost : (Detailed.updateMetrics src w).2.tableSizeGauge
      = applyRows todo (applyRows done w.tableSizeGauge) := by
    rw [detailed_updateMetrics_gauge, hw, applyRows_append]
  rw [hw, List.map_append] at hdistinct
  have hdisj := (List.nodup_append.mp hdistinct).2.2
  have hsettled : obs k = (applyRows done w.tableSizeGauge).get k →
      obs k = w.tableSizeGauge.get k ∨
        obs k = (Detailed.updateMetrics src w).2.tableSizeGauge.get k := by
    intro hobsk
    by_cases hin : k ∈ done.map Row.key
    · right
      rw [hpost, get_applyRows_of_not_mem todo _ k (fun h2 => hdisj hin h2)]
      exact hobsk
    · left
      rw [hobsk, get_applyRows_of_not_mem done _ k hin]
  rcases hcase with hg | ⟨r, rest, htodo, hg⟩
  · rcases hsettled (by rw [hk, hg]) with h | h
    · exact Or.inl h
    · exact Or.inr (Or.inl h)
  · by_cases hkr : k = r.key
    · have hnot : k ∉ done.map Row.key := by
        intro hin
        exact hdisj hin (by rw [htodo, hkr]; simp)
      have hpre : (applyRows done w.tableSizeGauge).get k = w.tableSizeGauge.get k :=
        get_applyRows_of_not_mem done _ k hnot
      rcases GaugeVec.get_getOrCreate_self (applyRows done w.tableSizeGauge) r.key with h | h
      · left
        rw [hk, hg, hkr, h, ← hkr, hpre]
      · right
        right
        refine ⟨?_, ?_⟩
        · rw [← hpre, hkr]
          exact h.1
        · rw [hk, hg, hkr]
          exact h.2
    · have hsame : obs k = (applyRows done w.tableSizeGauge).get k := by
        rw [hk, hg]
        exact GaugeVec.get_getOrCreate_ne _ r.key k hkr
      rcases hsettled hsame with h | h
      · exact Or.inl h
      · exact Or.inr (Or.inl h)

theorem scrape_during_cycle_per_key_witness :
    (usersOnly.get ordersKey = freshWorld.tableSizeGauge.get ordersKey ∨
      usersOnly.get ordersKey
        = (Detailed.updateMetrics twoRowsDB.toSource freshWorld).2.tableSizeGauge.get ordersKey ∨
      (freshWorld.tableSizeGauge.get ordersKey = none ∧ usersOnly.get ordersKey = some 0)) ∧
    (usersCreated.get usersKey = freshWorld.tableSizeGauge.get usersKey ∨
      usersCreated.get usersKey
        = (Detailed.updateMetrics twoRowsDB.toSource freshWorld).2.tableSizeGauge.get usersKey ∨
      (freshWorld.tableSizeGauge.get usersKey = none ∧ usersCreated.get usersKey = some 0)) :=
  ⟨scrape_during_cycle_per_key twoRowsDB.toSource freshWorld usersOnly.get
      (fun _ => ⟨usersOnly, by decide, rfl⟩) (by decide) ordersKey,
    scrape_during_cycle_per_key twoRowsDB.toSource freshWorld usersCreated.get
      (fun _ => ⟨usersCreated, by decide, rfl⟩) (by decide) usersKey⟩

/-- C9: the goroutine of `main` calls `updateMetrics` once before it takes any
tick and once more for every tick it takes. After `n` ticks the calls and
returns it has recorded are `n + 1` pairs, each call followed by its return
before the next call. -/
theorem refreshLoop_one_cycle_per_tick (first : DB V) (ticks : List (DB V)) (w : World V) :
    ∃ evs, (refreshLoop first ticks w).trace = w.trace ++ evs ∧
      evs.head? = some Event.cycleStart ∧
      evs.filter Event.isCycleMark
        = (List.replicate (ticks.length + 1) [Event.cycleStart, Event.cycleReturn]).flatten ∧
      evs.count Event.cycleStart = ticks.length + 1 := by
  obtain ⟨e1, h1, f1⟩ := callUpdateMetrics_trace first w
  obtain ⟨e2, h2, f2⟩ := foldl_callUpdateMetrics_trace ticks (callUpdateMetrics first w)
  have hf : (e1 ++ e2).filter Event.isCycleMark
      = (List.replicate (ticks.length + 1) [Event.cycleStart, Event.cycleReturn]).flatten := by
    rw [List.filter_append, f1, f2, List.replicate_succ, List.flatten_cons]
  have hhead : (e1 ++ e2).head? = some Event.cycleStart := by
    obtain ⟨evs, h, _⟩ := updateMetrics_trace_append first (w.emit Event.cycleStart)
    have h3 : (callUpdateMetrics first w).trace
        = w.trace ++ (Event.cycleStart :: (evs ++ [Event.cycleReturn])) := by
      unfold callUpdateMetrics
      simp only [World.emit] at h ⊢
      rw [h]
      simp
    have h4 : e1 = Event.cycleStart :: (evs ++ [Event.cycleReturn]) :=
      List.append_cancel_left (h1.symm.trans h3)
    rw [h4]
    rfl
  refine ⟨e1 ++ e2, ?_, hhead, hf, ?_⟩
  · unfold refreshLoop
    rw [h2, h1, List.append_assoc]
  · rw [← List.count_filter (show Event.isCycleMark Event.cycleStart = true from rfl), hf]
    generalize ticks.length + 1 = n
    induction n with
    | zero => rfl
    | succ m ih =>
      rw [List.replicate_succ, List.flatten_cons, List.count_append, ih]
      simp [List.count_cons]
      omega

/-- C10, failing input: a source that delivers one decodable row and then ends
the iteration with an error. The cycle logs the iteration error and, right
after it, the summary line. -/
theorem updateMetrics_summary_after_iteration_error :
    (updateMetrics brokenStreamDB freshWorld).trace
      = [Event.dbOpened, Event.rowsOpened,
          Event.log (LogLine.iterError "invalid connection"),
          Event.log (LogLine.summary 1 "app"),
          Event.rowsClosed, Event.dbClosed] := by
  decide

end Claims

end TableSizeExporter
